import Mathlib

/-!
Shallow embedding of the pattern-matching and templated-editing core of the
Lorgnette repository: the Position/Range/Document model, the language
registry, the textual (regex) and structural (tree) pattern finders, the
regex-pattern template layer and the valuators, together with theorems
checking the specification's claims against these definitions.

Definitions are translated from the TypeScript sources. Where the deciding
code is not among the provided sources (only its callers or declarations
are), the definition is modelled from the specification and its doc comment
starts with "Modelled from the spec:".
-/

namespace Lorgnette

/-! ### Positions (spec section 3; the Position class itself is not among the
provided sources, so its fields and operations are modelled from the spec:
"(row, column) zero-based; equality and ordering are structural"). -/

/-- Modelled from the spec: a `Position` is a zero-based (row, column) pair. -/
structure Position where
  row : Nat
  column : Nat
deriving DecidableEq, Repr

/-- Modelled from the spec: structural equality of positions
(the source's `Position.isEqualTo`, used by `Range.isEmpty`). -/
def Position.isEqualTo (p q : Position) : Bool :=
  p.row == q.row && p.column == q.column

/-- Modelled from the spec: the structural (lexicographic) strict ordering on
positions: earlier row, or same row and earlier column. -/
def Position.isStrictlyBefore (p q : Position) : Bool :=
  decide (p.row < q.row) || (p.row == q.row && decide (p.column < q.column))

/-- The structural non-strict order on positions, as a proposition. -/
def Position.le (p q : Position) : Prop :=
  p.row < q.row ∨ (p.row = q.row ∧ p.column ≤ q.column)

instance : DecidablePred fun pq : Position × Position => Position.le pq.1 pq.2 :=
  fun pq => by unfold Position.le; infer_instance

instance (p q : Position) : Decidable (Position.le p q) := by
  unfold Position.le; infer_instance

/-! ### Ranges (source file: the unnamed Range module, `class Range`).
The source field `end` is a Lean keyword; it is embedded as `endPos`. -/

/-- A `Range` is a pair of positions (start, end), half-open in document
order (source: `class Range { readonly start; readonly end; }`). -/
structure Range where
  start : Position
  endPos : Position
deriving DecidableEq, Repr

/-- Source: `isEmpty(): boolean { return this.start.isEqualTo(this.end); }`. -/
def Range.isEmpty (r : Range) : Bool :=
  r.start.isEqualTo r.endPos

/-- Source: `static fromSinglePosition(position) { return new Range(position, position); }`. -/
def Range.fromSinglePosition (position : Position) : Range :=
  ⟨position, position⟩

/-- Modelled from the spec: `Range.fromUnsortedPositions` (called by
`convertMonacoSelection`; its own source is not among the provided files)
"MUST sort" its two arguments, returning a range whose start is the earlier
of the two positions. -/
def Range.fromUnsortedPositions (p1 p2 : Position) : Range :=
  if Position.isStrictlyBefore p2 p1 then ⟨p2, p1⟩ else ⟨p1, p2⟩

/-! ### Languages and the language registry
(source file: src/core/languages/Language.ts). Only the Python language
constant is among the provided sources; the other five entries of
`SUPPORTED_LANGUAGES` are modelled from the spec's list of supported
languages (a general-purpose language, a math-expression language, a
data-interchange language, a markup/style language, a plain-text fallback). -/

/-- A `Language` bundles a display name, a stable identifier, an
editor-facing syntax-highlighting identifier, and an optional parser
(embedded as a presence flag, since only presence matters here). -/
structure Language where
  name : String
  id : String
  codeEditorLanguageId : String
  hasParser : Bool
deriving DecidableEq, Repr

/-- Source (src/core/languages/python/language.ts): the Python language. -/
def PYTHON_LANGUAGE : Language :=
  { name := "Python (subset)", id := "python", codeEditorLanguageId := "python", hasParser := true }

/-- Modelled from the spec: the general-purpose language entry. -/
def TYPESCRIPT_LANGUAGE : Language :=
  { name := "TypeScript", id := "typescript", codeEditorLanguageId := "typescript", hasParser := true }

/-- Modelled from the spec: the math-expression language entry. -/
def MATHEMATICS_LANGUAGE : Language :=
  { name := "Mathematics", id := "mathematics", codeEditorLanguageId := "mathematics", hasParser := true }

/-- Modelled from the spec: the data-interchange language entry. -/
def JSON_LANGUAGE : Language :=
  { name := "JSON", id := "json", codeEditorLanguageId := "json", hasParser := true }

/-- Modelled from the spec: the style-sheet language entry. -/
def CSS_LANGUAGE : Language :=
  { name := "CSS", id := "css", codeEditorLanguageId := "css", hasParser := true }

/-- Modelled from the spec: the plain-text fallback language entry. -/
def PLAIN_TEXT_LANGUAGE : Language :=
  { name := "Plain text", id := "plain-text", codeEditorLanguageId := "plaintext", hasParser := true }

/-- Source: the `SUPPORTED_LANGUAGES` constant of Language.ts, in source
order. -/
def SUPPORTED_LANGUAGES : List Language :=
  [TYPESCRIPT_LANGUAGE, MATHEMATICS_LANGUAGE, JSON_LANGUAGE,
   CSS_LANGUAGE, PYTHON_LANGUAGE, PLAIN_TEXT_LANGUAGE]

/-- Source: `getLanguageWithId(id) = SUPPORTED_LANGUAGES.find(l => l.id === id) ?? null`;
the absent result `null` is embedded as `none`. -/
def getLanguageWithId (id : String) : Option Language :=
  SUPPORTED_LANGUAGES.find? (fun language => language.id == id)

/-! ### Documents and regex matches -/

/-- Modelled from the spec: a `Document` owns a language identity and its
current text content, and exposes an emptiness test (the Document class
itself is not among the provided sources). -/
structure Document where
  languageId : String
  content : String
deriving DecidableEq, Repr

/-- Modelled from the spec: a document is empty when its content is the
empty string. -/
def Document.isEmpty (document : Document) : Bool :=
  document.content.isEmpty

/-- Modelled from the spec: a named capture group that participated in a
regex match — its name, captured value, and range. Groups that did not
participate in a match are absent from the list, not present with an empty
value (spec section 4.4). -/
structure RegexMatchGroup where
  name : String
  value : String
  range : Range
deriving DecidableEq, Repr

/-- Modelled from the spec: the data of one regular-expression match — the
overall matched text and range, and the list of participating named
groups (the RegexMatcher class is not among the provided sources). -/
structure RegexMatch where
  value : String
  range : Range
  groups : List RegexMatchGroup
deriving DecidableEq, Repr

/-- Modelled from the spec: a textual Fragment — the raw matched substring,
its overall Range, the named capture sub-ranges, and the owning document
(the TextualPattern class referenced by RegexPatternFinder is not among the
provided sources). -/
structure TextualPattern where
  text : String
  range : Range
  groups : List RegexMatchGroup
  document : Document
deriving DecidableEq, Repr

/-- Modelled from the spec: `TextualPattern.fromRegexMatch` packages a regex
match and its document into a textual fragment. -/
def TextualPattern.fromRegexMatch (m : RegexMatch) (document : Document) : TextualPattern :=
  { text := m.value, range := m.range, groups := m.groups, document := document }

/-! ### The textual pattern finder (source: RegexPatternFinder.applyInDocument) -/

/-- `RegexPatternFinder.applyInDocument`, instrumented: the underlying
matcher (whose source is not provided) is abstracted as the `matchAll`
parameter, and the boolean in the result records whether it was invoked.
Source:
`if (document.isEmpty) { return []; }
 return this.regexMatcher.matchAll(document.content).map(m => TextualPattern.fromRegexMatch(m, document));`. -/
def RegexPatternFinder.applyInDocumentInstrumented
    (matchAll : String → List RegexMatch) (document : Document) :
    List TextualPattern × Bool :=
  if document.isEmpty then ([], false)
  else
    ((matchAll document.content).map (fun m => TextualPattern.fromRegexMatch m document), true)

/-- `RegexPatternFinder.applyInDocument`: the fragment list alone. -/
def RegexPatternFinder.applyInDocument
    (matchAll : String → List RegexMatch) (document : Document) : List TextualPattern :=
  (RegexPatternFinder.applyInDocumentInstrumented matchAll document).1

/-! ### The regex-pattern template layer
(source: src/core/templates/textual/RegexPatternTemplate.ts) -/

/-- Slot keys are strings (source: TemplateSlotKey). -/
abbrev TemplateSlotKey := String

/-- Modelled from the spec: a valuator provider is a factory turning raw
text into a valuator; only its identity matters to the template pass, so it
is embedded as a token. -/
structure TemplateSlotValuatorProvider where
  id : Nat
deriving DecidableEq, Repr

/-- A textual template slot, with the constructor arguments used in
`RegexPatternTemplate.provideFragmentsForDocument`: captured text, its
range, the owning document, the slot key, and the valuator provider. -/
structure TextualTemplateSlot where
  text : String
  range : Range
  document : Document
  key : TemplateSlotKey
  valuatorProvider : TemplateSlotValuatorProvider
deriving DecidableEq, Repr

/-- Modelled from the spec: a fragment paired with the regex match it came
from, as returned by the finder's `provideFragmentsWithMatchesForDocument`
(whose source is not provided). -/
structure FragmentWithMatch where
  fragment : TextualPattern
  matchData : RegexMatch
deriving DecidableEq, Repr

/-- The template's `fragmentsToKeysToSlots` Map together with the identity
of the underlying Map object. JavaScript `Map.prototype.clear()` empties
the same object (`mapAllocId` unchanged) whereas `new Map()` would produce
a fresh object with a new `mapAllocId`; a holder of a reference to the map
observes the contents associated with its `mapAllocId`. Contents are kept
as an association list in insertion order. -/
structure TemplateState where
  mapAllocId : Nat
  fragmentsToKeysToSlots : List (TextualPattern × List (TemplateSlotKey × TextualTemplateSlot))
deriving DecidableEq, Repr

/-- The inner loop of `RegexPatternTemplate.provideFragmentsForDocument`:
for each declared entry of the slot specification (in specification order),
find the first regex group whose name equals the slot key
(`match.groups.find(group => group.name === slotKey)`); if one is found,
build the slot; otherwise the key is skipped. -/
def computeKeysToSlots
    (slotSpecification : List (TemplateSlotKey × TemplateSlotValuatorProvider))
    (document : Document) (m : RegexMatch) :
    List (TemplateSlotKey × TextualTemplateSlot) :=
  slotSpecification.filterMap (fun kv =>
    (m.groups.find? (fun group => group.name == kv.1)).map (fun matchingRegexGroup =>
      (kv.1,
       { text := matchingRegexGroup.value, range := matchingRegexGroup.range,
         document := document, key := kv.1, valuatorProvider := kv.2 })))

/-- `RegexPatternTemplate.provideFragmentsForDocument`. The finder's output
is passed in as `fragmentsWithMatches`. The pass clears the existing
`fragmentsToKeysToSlots` Map in place (`this.fragmentsToKeysToSlots.clear()`
— same Map object, so `mapAllocId` is unchanged), inserts one entry per
fragment with the slots derived from its match, and returns the list of
fragments. -/
def provideFragmentsForDocument
    (slotSpecification : List (TemplateSlotKey × TemplateSlotValuatorProvider))
    (st : TemplateState) (document : Document)
    (fragmentsWithMatches : List FragmentWithMatch) :
    List TextualPattern × TemplateState :=
  (fragmentsWithMatches.map (fun fm => fm.fragment),
   { mapAllocId := st.mapAllocId,
     fragmentsToKeysToSlots :=
       fragmentsWithMatches.map (fun fm =>
         (fm.fragment, computeKeysToSlots slotSpecification document fm.matchData)) })

/-! ### The regex matcher scan loop (RegexMatcher.matchAll, spec section 4.4) -/

/-- Modelled from the spec: the scan loop of the missing
`RegexMatcher.matchAll`. The regex engine is abstracted as `nextMatch`,
which, given a scan position, returns the next match (start, end) at or
after that position, or none. The loop takes the next match and advances
the scan position to the match's end — or one past it for a zero-width
match ("the implementation must always advance the scan position past a
zero-width match"). `fuel` bounds the recursion; `len + 1` units are proven
sufficient for any sane engine. -/
def matchAllScan (nextMatch : Nat → Option (Nat × Nat)) (len : Nat) :
    Nat → Nat → List (Nat × Nat)
  | _, 0 => []
  | pos, fuel + 1 =>
    if len < pos then []
    else
      match nextMatch pos with
      | none => []
      | some (s, e) =>
        (s, e) :: matchAllScan nextMatch len (if e = s then e + 1 else e) fuel

/-- Modelled from the spec: `RegexMatcher.matchAll` scans the whole text
(of length `len`) from offset 0. -/
def RegexMatcher.matchAll (nextMatch : Nat → Option (Nat × Nat)) (len : Nat) :
    List (Nat × Nat) :=
  matchAllScan nextMatch len 0 (len + 1)

/-- Sanity of the abstract regex engine: a match returned for a scan
position starts at or after that position, ends at or after its start, and
ends within the text. Any real regex engine searching forward from the scan
position satisfies this. -/
def NextMatchSane (nextMatch : Nat → Option (Nat × Nat)) (len : Nat) : Prop :=
  ∀ pos s e, nextMatch pos = some (s, e) → pos ≤ s ∧ s ≤ e ∧ e ≤ len

theorem matchAllScan_start_le (nextMatch : Nat → Option (Nat × Nat)) (len : Nat)
    (hsane : NextMatchSane nextMatch len) :
    ∀ fuel pos x, x ∈ matchAllScan nextMatch len pos fuel → pos ≤ x.1 := by
  intro fuel
  induction fuel with
  | zero => intro pos x hx; simp [matchAllScan] at hx
  | succ f ih =>
    intro pos x hx
    by_cases hpos : len < pos
    · simp [matchAllScan, hpos] at hx
    · cases hnm : nextMatch pos with
      | none => simp [matchAllScan, hpos, hnm] at hx
      | some se =>
        obtain ⟨s, e⟩ := se
        have hs := hsane pos s e hnm
        simp only [matchAllScan, if_neg hpos, hnm, List.mem_cons] at hx
        rcases hx with heq | htail
        · subst heq; omega
        · have htl := ih _ x htail
          by_cases hzw : e = s
          · rw [if_pos hzw] at htl; omega
          · rw [if_neg hzw] at htl; omega

theorem matchAllScan_pairwise (nextMatch : Nat → Option (Nat × Nat)) (len : Nat)
    (hsane : NextMatchSane nextMatch len) :
    ∀ fuel pos, (matchAllScan nextMatch len pos fuel).Pairwise
      (fun a b => a.1 < b.1) := by
  intro fuel
  induction fuel with
  | zero => intro pos; simp [matchAllScan]
  | succ f ih =>
    intro pos
    by_cases hpos : len < pos
    · simp [matchAllScan, hpos]
    · cases hnm : nextMatch pos with
      | none => simp [matchAllScan, hpos, hnm]
      | some se =>
        obtain ⟨s, e⟩ := se
        have hs := hsane pos s e hnm
        simp only [matchAllScan, if_neg hpos, hnm]
        refine List.pairwise_cons.mpr ⟨?_, ih _⟩
        intro y hy
        have htl := matchAllScan_start_le nextMatch len hsane f _ y hy
        by_cases hzw : e = s
        · rw [if_pos hzw] at htl; simp; omega
        · rw [if_neg hzw] at htl; simp; omega

theorem matchAllScan_fuel_independent (nextMatch : Nat → Option (Nat × Nat)) (len : Nat)
    (hsane : NextMatchSane nextMatch len) :
    ∀ fuel fuel' pos, len + 1 - pos ≤ fuel → len + 1 - pos ≤ fuel' →
      matchAllScan nextMatch len pos fuel = matchAllScan nextMatch len pos fuel' := by
  intro fuel
  induction fuel with
  | zero =>
    intro fuel' pos h h'
    have hpos : len < pos := by omega
    cases fuel' with
    | zero => rfl
    | succ f' => simp [matchAllScan, hpos]
  | succ f ih =>
    intro fuel' pos h h'
    cases fuel' with
    | zero =>
      have hpos : len < pos := by omega
      simp [matchAllScan, hpos]
    | succ f' =>
      by_cases hpos : len < pos
      · simp [matchAllScan, hpos]
      · cases hnm : nextMatch pos with
        | none => simp [matchAllScan, hpos, hnm]
        | some se =>
          obtain ⟨s, e⟩ := se
          have hs := hsane pos s e hnm
          have hnext : pos + 1 ≤ (if e = s then e + 1 else e) := by
            split <;> omega
          simp only [matchAllScan, if_neg hpos, hnm]
          rw [ih f' (if e = s then e + 1 else e) (by omega) (by omega)]

/-! ### Syntax trees and the structural pattern finder
(spec sections 3 and 4.3; the TreePatternFinder and SyntaxTreePattern
sources are not among the provided files — only their caller in
vega-marks.tsx is — so the walk is modelled from the spec). -/

/-- Modelled from the spec: the uniform syntax-tree node surface — a type
tag, a range into the document, and an ordered list of child nodes (source
order; empty for leaves). The raw parser-specific provenance reference is
debug-only and not part of the matching surface. -/
inductive SyntaxTreeNode where
  | node (type : String) (range : Range) (childNodes : List SyntaxTreeNode)

/-- The node's type tag. -/
def SyntaxTreeNode.type : SyntaxTreeNode → String
  | .node t _ _ => t

/-- The node's ordered list of children. -/
def SyntaxTreeNode.childNodes : SyntaxTreeNode → List SyntaxTreeNode
  | .node _ _ cs => cs

/-- Modelled from the spec: the descent-control decision taken for each
match. -/
inductive SyntaxTreePatternDescentDecision where
  | continueIntoDescendants
  | skipDescendants
deriving DecidableEq, Repr

/-- Source (SyntaxTreePattern.ts, via its use in vega-marks.tsx): the
constant descent policy that skips the descendants of every match. -/
def SKIP_MATCH_DESCENDANTS : SyntaxTreePatternDescentDecision :=
  .skipDescendants

/-- Modelled from the spec: a structural pattern is a match predicate plus
a descent-control decision. -/
structure SyntaxTreePattern where
  matchesNode : SyntaxTreeNode → Bool
  descentDecision : SyntaxTreePatternDescentDecision

mutual

/-- Modelled from the spec: the pre-order walk of the structural pattern
finder — visit the node; if it matches, collect it and, depending on the
descent decision, either skip its subtree or continue into its children;
if it does not match, continue into its children. -/
def findMatchesInNode (matchesNode : SyntaxTreeNode → Bool)
    (policy : SyntaxTreePatternDescentDecision) : SyntaxTreeNode → List SyntaxTreeNode
  | .node t r cs =>
    if matchesNode (.node t r cs) then
      (.node t r cs) ::
        (match policy with
         | .skipDescendants => []
         | .continueIntoDescendants => findMatchesInList matchesNode policy cs)
    else
      findMatchesInList matchesNode policy cs

/-- The walk over a list of sibling subtrees, in source order. -/
def findMatchesInList (matchesNode : SyntaxTreeNode → Bool)
    (policy : SyntaxTreePatternDescentDecision) : List SyntaxTreeNode → List SyntaxTreeNode
  | [] => []
  | c :: rest => findMatchesInNode matchesNode policy c ++ findMatchesInList matchesNode policy rest

end

/-- A structural Fragment: an opaque handle carrying the matched node. -/
structure SyntacticFragment where
  node : SyntaxTreeNode

/-- Modelled from the spec: `TreePatternFinder` applied to a parsed tree —
one Fragment per matching node, in pre-order (source order). -/
def TreePatternFinder.applyInTree (pattern : SyntaxTreePattern)
    (root : SyntaxTreeNode) : List SyntacticFragment :=
  (findMatchesInNode pattern.matchesNode pattern.descentDecision root).map SyntacticFragment.mk

mutual

/-- All nodes of a subtree, in pre-order. -/
def allNodes : SyntaxTreeNode → List SyntaxTreeNode
  | .node t r cs => .node t r cs :: allNodesInList cs

/-- All nodes of a list of sibling subtrees, in pre-order. -/
def allNodesInList : List SyntaxTreeNode → List SyntaxTreeNode
  | [] => []
  | c :: rest => allNodes c ++ allNodesInList rest

end

/-- The strict descendants of a node: all nodes of its children's
subtrees. -/
def strictDescendants (n : SyntaxTreeNode) : List SyntaxTreeNode :=
  allNodesInList n.childNodes

mutual

/-- The number of nodes of a subtree. -/
def nodeSize : SyntaxTreeNode → Nat
  | .node _ _ cs => 1 + listSize cs

/-- The number of nodes of a list of sibling subtrees. -/
def listSize : List SyntaxTreeNode → Nat
  | [] => 0
  | c :: rest => nodeSize c + listSize rest

end

/-- A concrete leaf node matching the "Property" predicate, nested inside
`exampleOuterNode` (used to exercise the descent policies). -/
def exampleInnerNode : SyntaxTreeNode :=
  .node "Property" ⟨⟨1, 0⟩, ⟨1, 5⟩⟩ []

/-- A concrete "Property" node containing `exampleInnerNode`. -/
def exampleOuterNode : SyntaxTreeNode :=
  .node "Property" ⟨⟨0, 0⟩, ⟨2, 0⟩⟩ [exampleInnerNode]

/-- A concrete root node (not itself a "Property") containing
`exampleOuterNode`. -/
def exampleRootNode : SyntaxTreeNode :=
  .node "Object" ⟨⟨0, 0⟩, ⟨3, 0⟩⟩ [exampleOuterNode]

/-! ### Valuators (spec sections 4.5, 6 and 8; the TextualValuator and
NumericValuator sources are not among the provided files — only their
imports in vega-marks.tsx are — so they are modelled from the spec:
bidirectional converters between raw captured text and a typed value, with
round-trip fidelity as the contract). -/

/-- The decimal digit character of a digit value below ten. -/
def digitChar : Nat → Char
  | 0 => '0' | 1 => '1' | 2 => '2' | 3 => '3' | 4 => '4'
  | 5 => '5' | 6 => '6' | 7 => '7' | 8 => '8' | _ => '9'

/-- The digit value of a decimal digit character, if it is one. -/
def charToDigit? (c : Char) : Option Nat :=
  if c = '0' then some 0 else if c = '1' then some 1 else
  if c = '2' then some 2 else if c = '3' then some 3 else
  if c = '4' then some 4 else if c = '5' then some 5 else
  if c = '6' then some 6 else if c = '7' then some 7 else
  if c = '8' then some 8 else if c = '9' then some 9 else none

/-- The decimal notation of a natural number, most significant digit
first (`Nat.digits` is little-endian, hence the reverse). -/
def natToDecimalString (n : Nat) : String :=
  if n = 0 then "0" else ⟨((Nat.digits 10 n).map digitChar).reverse⟩

/-- Parse a list of decimal digit characters into their digit values, or
none if some character is not a decimal digit. -/
def digitsOfChars? : List Char → Option (List Nat)
  | [] => some []
  | c :: cs =>
    match charToDigit? c, digitsOfChars? cs with
    | some d, some ds => some (d :: ds)
    | _, _ => none

/-- Parse a non-empty run of decimal digit characters (most significant
first) as a natural number. -/
def parseNatOfChars? (cs : List Char) : Option Nat :=
  if cs.isEmpty then none
  else (digitsOfChars? cs).map (fun ds => Nat.ofDigits 10 ds.reverse)

/-- Modelled from the spec: `NumericValuator.serialize` — the decimal text
of a typed numeric value (a leading minus sign for negative values). -/
def NumericValuator.serialize : Int → String
  | .ofNat n => natToDecimalString n
  | .negSucc m => "-" ++ natToDecimalString (m + 1)

/-- Modelled from the spec: `NumericValuator.deserialize` — parse decimal
text with an optional leading minus sign into a numeric value. -/
def NumericValuator.deserialize (s : String) : Option Int :=
  match s.data with
  | [] => none
  | c :: cs =>
    if c = '-' then (parseNatOfChars? cs).map (fun n => -(n : Int))
    else (parseNatOfChars? (c :: cs)).map (fun n => (n : Int))

/-- Modelled from the spec: `TextualValuator.serialize` — the typed value
of a textual slot is the raw text itself. -/
def TextualValuator.serialize (v : String) : String := v

/-- Modelled from the spec: `TextualValuator.deserialize`. -/
def TextualValuator.deserialize (s : String) : String := s

/-! ### Helper lemmas about positions and the registry -/

theorem Position.isEqualTo_iff (p q : Position) : p.isEqualTo q = true ↔ p = q := by
  cases p with
  | mk pr pc =>
    cases q with
    | mk qr qc =>
      simp [Position.isEqualTo]

theorem find?_eq_some_of_mem_of_nodup (ls : List Language) (i : String) (l : Language)
    (hnd : (ls.map Language.id).Nodup) (hmem : l ∈ ls) (hid : l.id = i) :
    ls.find? (fun language => language.id == i) = some l := by
  induction ls with
  | nil => cases hmem
  | cons hd tl ih =>
    simp only [List.map_cons, List.nodup_cons] at hnd
    rcases List.mem_cons.mp hmem with heq | htl
    · subst heq
      simp [List.find?, hid]
    · have hhd : hd.id ≠ i := by
        intro hcontra
        exact hnd.1 (hcontra ▸ hid ▸ List.mem_map_of_mem Language.id htl)
      simp only [List.find?]
      have hfalse : (hd.id == i) = false := by simpa using hhd
      rw [hfalse]
      exact ih hnd.2 htl

/-- C7: for every string id, `getLanguageWithId id` returns the supported
language whose stable identifier equals id when one exists, and `none` when
no supported language has that identifier; it never substitutes a fallback
language itself. -/
theorem getLanguageWithId_correct (id : String) :
    (∀ l : Language, l ∈ SUPPORTED_LANGUAGES → l.id = id → getLanguageWithId id = some l) ∧
    ((∀ l : Language, l ∈ SUPPORTED_LANGUAGES → l.id ≠ id) → getLanguageWithId id = none) := by
  constructor
  · intro l hmem hid
    exact find?_eq_some_of_mem_of_nodup SUPPORTED_LANGUAGES id l (by decide) hmem hid
  · intro h
    apply List.find?_eq_none.mpr
    intro l hmem
    simpa using h l hmem

/-- Witness for C7 at the concrete identifiers "python" (present) and
"cobol" (absent). -/
theorem getLanguageWithId_correct_witness :
    getLanguageWithId "python" = some PYTHON_LANGUAGE ∧ getLanguageWithId "cobol" = none :=
  ⟨(getLanguageWithId_correct "python").1 PYTHON_LANGUAGE (by decide) (by decide),
   (getLanguageWithId_correct "cobol").2 (by decide)⟩

/-- C8: for every pair of positions, `Range.fromUnsortedPositions p1 p2`
returns a range whose start is less than or equal to its end, and the
construction is symmetric in its two arguments. -/
theorem fromUnsortedPositions_sorted_and_symmetric (p1 p2 : Position) :
    Position.le (Range.fromUnsortedPositions p1 p2).start
      (Range.fromUnsortedPositions p1 p2).endPos ∧
    Range.fromUnsortedPositions p1 p2 = Range.fromUnsortedPositions p2 p1 := by
  cases p1 with
  | mk r1 c1 =>
    cases p2 with
    | mk r2 c2 =>
      unfold Range.fromUnsortedPositions Position.isStrictlyBefore Position.le
      constructor
      · split <;> simp_all <;> omega
      · split <;> split <;> simp_all <;> omega

/-- C9: `Range.fromSinglePosition p` is a zero-width range (start = end = p)
whose `isEmpty` test returns true, and in general `isEmpty` returns true
exactly when start equals end. -/
theorem fromSinglePosition_isEmpty (p : Position) :
    Range.fromSinglePosition p = ⟨p, p⟩ ∧
    (Range.fromSinglePosition p).isEmpty = true ∧
    ∀ r : Range, r.isEmpty = true ↔ r.start = r.endPos := by
  refine ⟨rfl, ?_, ?_⟩
  · simp [Range.fromSinglePosition, Range.isEmpty, Position.isEqualTo_iff]
  · intro r
    simpa [Range.isEmpty] using Position.isEqualTo_iff r.start r.endPos

/-- C3: for every document whose content is empty,
`RegexPatternFinder.applyInDocument` returns the empty fragment list and the
underlying regex matcher is not invoked at all (the short-circuit fires
before the `matchAll` call). -/
theorem applyInDocument_empty_short_circuit
    (matchAll : String → List RegexMatch) (document : Document)
    (h : document.isEmpty = true) :
    RegexPatternFinder.applyInDocumentInstrumented matchAll document = ([], false) := by
  simp [RegexPatternFinder.applyInDocumentInstrumented, h]

/-- Witness for C3: an empty document, with a matcher that would report a
match on any text it were given — the result is still empty and the matcher
is not consulted. -/
theorem applyInDocument_empty_short_circuit_witness :
    RegexPatternFinder.applyInDocumentInstrumented
      (fun s => [{ value := s, range := ⟨⟨0, 0⟩, ⟨0, 0⟩⟩, groups := [] }])
      ⟨"plain-text", ""⟩ = ([], false) :=
  applyInDocument_empty_short_circuit
    (fun s => [{ value := s, range := ⟨⟨0, 0⟩, ⟨0, 0⟩⟩, groups := [] }])
    ⟨"plain-text", ""⟩ (by decide)

/-- C1: after `provideFragmentsForDocument`, every processed fragment is
mapped to the slot map derived from its own match, and a slot key is present
in that slot map if and only if the key is declared in the slot
specification and a named capture group with that exact name participated in
the fragment's match; a declared key with no matching group is simply
absent (the embedding is total — no error is raised). -/
theorem provideFragments_slot_key_iff
    (slotSpecification : List (TemplateSlotKey × TemplateSlotValuatorProvider))
    (st : TemplateState) (document : Document)
    (fragmentsWithMatches : List FragmentWithMatch)
    (fm : FragmentWithMatch) (hmem : fm ∈ fragmentsWithMatches)
    (k : TemplateSlotKey) :
    (fm.fragment, computeKeysToSlots slotSpecification document fm.matchData) ∈
      (provideFragmentsForDocument slotSpecification st document
        fragmentsWithMatches).2.fragmentsToKeysToSlots ∧
    ((∃ slot, (k, slot) ∈ computeKeysToSlots slotSpecification document fm.matchData) ↔
      ((∃ vp, (k, vp) ∈ slotSpecification) ∧
       ∃ g ∈ fm.matchData.groups, g.name = k)) := by
  constructor
  · exact List.mem_map_of_mem
      (fun fm => (fm.fragment, computeKeysToSlots slotSpecification document fm.matchData)) hmem
  · constructor
    · rintro ⟨slot, hslot⟩
      rcases List.mem_filterMap.mp hslot with ⟨kv, hkv, hf⟩
      rcases Option.map_eq_some'.mp hf with ⟨g, hfind, heq⟩
      have hk : kv.1 = k := by
        have := congrArg Prod.fst heq
        simpa using this
      have hgmem : g ∈ fm.matchData.groups := List.mem_of_find?_eq_some hfind
      have hgname := List.find?_some hfind
      simp only [beq_iff_eq] at hgname
      refine ⟨⟨kv.2, ?_⟩, ⟨g, hgmem, ?_⟩⟩
      · have : (k, kv.2) = kv := by
          cases kv; simp_all
        rw [this]; exact hkv
      · rw [hgname, hk]
    · rintro ⟨⟨vp, hvp⟩, ⟨g, hgmem, hgname⟩⟩
      have hfind : ((fm.matchData.groups).find? (fun group => group.name == k)).isSome := by
        rw [List.find?_isSome]
        exact ⟨g, hgmem, by simpa using hgname⟩
      rcases Option.isSome_iff_exists.mp hfind with ⟨g', hg'⟩
      refine ⟨{ text := g'.value, range := g'.range, document := document,
                key := k, valuatorProvider := vp }, ?_⟩
      apply List.mem_filterMap.mpr
      exact ⟨(k, vp), hvp, by simp [hg']⟩

/-- Witness for C1 at a concrete input: a specification declaring keys
"fill" and "stroke", and a single fragment whose match has a participating
group named "fill" only: "fill" gets a slot, "stroke" does not. -/
theorem provideFragments_slot_key_iff_witness :
    (∃ slot, ("fill", slot) ∈ computeKeysToSlots
        [("fill", ⟨0⟩), ("stroke", ⟨1⟩)] ⟨"json", "x"⟩
        { value := "x", range := ⟨⟨0, 0⟩, ⟨0, 1⟩⟩,
          groups := [{ name := "fill", value := "x", range := ⟨⟨0, 0⟩, ⟨0, 1⟩⟩ }] }) ∧
    ¬ (∃ slot, ("stroke", slot) ∈ computeKeysToSlots
        [("fill", ⟨0⟩), ("stroke", ⟨1⟩)] ⟨"json", "x"⟩
        { value := "x", range := ⟨⟨0, 0⟩, ⟨0, 1⟩⟩,
          groups := [{ name := "fill", value := "x", range := ⟨⟨0, 0⟩, ⟨0, 1⟩⟩ }] }) := by
  constructor
  · exact (provideFragments_slot_key_iff [("fill", ⟨0⟩), ("stroke", ⟨1⟩)] ⟨0, []⟩ ⟨"json", "x"⟩
      [⟨{ text := "x", range := ⟨⟨0, 0⟩, ⟨0, 1⟩⟩, groups := [], document := ⟨"json", "x"⟩ },
        { value := "x", range := ⟨⟨0, 0⟩, ⟨0, 1⟩⟩,
          groups := [{ name := "fill", value := "x", range := ⟨⟨0, 0⟩, ⟨0, 1⟩⟩ }] }⟩]
      ⟨{ text := "x", range := ⟨⟨0, 0⟩, ⟨0, 1⟩⟩, groups := [], document := ⟨"json", "x"⟩ },
        { value := "x", range := ⟨⟨0, 0⟩, ⟨0, 1⟩⟩,
          groups := [{ name := "fill", value := "x", range := ⟨⟨0, 0⟩, ⟨0, 1⟩⟩ }] }⟩
      (by simp) "fill").2.mpr ⟨⟨⟨0⟩, by simp⟩, by simp⟩
  · intro hcontra
    have := (provideFragments_slot_key_iff [("fill", ⟨0⟩), ("stroke", ⟨1⟩)] ⟨0, []⟩ ⟨"json", "x"⟩
      [⟨{ text := "x", range := ⟨⟨0, 0⟩, ⟨0, 1⟩⟩, groups := [], document := ⟨"json", "x"⟩ },
        { value := "x", range := ⟨⟨0, 0⟩, ⟨0, 1⟩⟩,
          groups := [{ name := "fill", value := "x", range := ⟨⟨0, 0⟩, ⟨0, 1⟩⟩ }] }⟩]
      ⟨{ text := "x", range := ⟨⟨0, 0⟩, ⟨0, 1⟩⟩, groups := [], document := ⟨"json", "x"⟩ },
        { value := "x", range := ⟨⟨0, 0⟩, ⟨0, 1⟩⟩,
          groups := [{ name := "fill", value := "x", range := ⟨⟨0, 0⟩, ⟨0, 1⟩⟩ }] }⟩
      (by simp) "stroke").2.mp hcontra
    simp at this

/-- C10: the key list of the rebuilt `fragmentsToKeysToSlots` mapping is
exactly the fragment list returned by the call (every returned fragment has
an entry, possibly with an empty slot map, and nothing else — in particular
no entry from any earlier pass survives, since the rebuilt contents do not
depend on the previous contents). -/
theorem provideFragments_mapping_keys_exact
    (slotSpecification : List (TemplateSlotKey × TemplateSlotValuatorProvider))
    (st : TemplateState) (document : Document)
    (fragmentsWithMatches : List FragmentWithMatch) :
    ((provideFragmentsForDocument slotSpecification st document
        fragmentsWithMatches).2.fragmentsToKeysToSlots.map Prod.fst =
      (provideFragmentsForDocument slotSpecification st document
        fragmentsWithMatches).1) ∧
    ((provideFragmentsForDocument slotSpecification st document
        fragmentsWithMatches).2.fragmentsToKeysToSlots =
      (provideFragmentsForDocument slotSpecification
        { mapAllocId := st.mapAllocId, fragmentsToKeysToSlots := [] } document
        fragmentsWithMatches).2.fragmentsToKeysToSlots) := by
  constructor
  · simp [provideFragmentsForDocument, List.map_map, Function.comp]
  · rfl

/-- Counterexample to C6: `provideFragmentsForDocument` does NOT allocate a
fresh mapping and swap it in — the source calls
`this.fragmentsToKeysToSlots.clear()`, which empties the same Map object.
Concretely: starting from a state whose Map (allocation id 7) holds an
entry for an earlier fragment, one recompute pass leaves the allocation id
unchanged (same object — no fresh allocation) while the contents change
(the previous mapping object has been mutated in place, and a holder of a
reference to it now sees the rebuilt contents). -/
theorem provideFragments_reuses_mapping_object :
    ((provideFragmentsForDocument []
        ⟨7, [(⟨"old", ⟨⟨0, 0⟩, ⟨0, 3⟩⟩, [], ⟨"json", "old"⟩⟩, [])]⟩
        ⟨"json", "new"⟩
        [⟨⟨"new", ⟨⟨0, 0⟩, ⟨0, 3⟩⟩, [], ⟨"json", "new"⟩⟩,
          ⟨"new", ⟨⟨0, 0⟩, ⟨0, 3⟩⟩, []⟩⟩]).2.mapAllocId = 7) ∧
    ((provideFragmentsForDocument []
        ⟨7, [(⟨"old", ⟨⟨0, 0⟩, ⟨0, 3⟩⟩, [], ⟨"json", "old"⟩⟩, [])]⟩
        ⟨"json", "new"⟩
        [⟨⟨"new", ⟨⟨0, 0⟩, ⟨0, 3⟩⟩, [], ⟨"json", "new"⟩⟩,
          ⟨"new", ⟨⟨0, 0⟩, ⟨0, 3⟩⟩, []⟩⟩]).2.fragmentsToKeysToSlots ≠
      [(⟨"old", ⟨⟨0, 0⟩, ⟨0, 3⟩⟩, [], ⟨"json", "old"⟩⟩, [])]) := by
  constructor
  · rfl
  · decide

/-- C6 amended: on every recompute pass the Fragment→Slots mapping is
rebuilt wholesale IN PLACE — the existing Map object is cleared and
repopulated (object identity, hence `mapAllocId`, is preserved; no fresh
map is allocated), and the rebuilt contents are exactly the fresh
derivation from the new fragments, independent of the previous contents. -/
theorem provideFragments_rebuilds_wholesale_in_place
    (slotSpecification : List (TemplateSlotKey × TemplateSlotValuatorProvider))
    (st : TemplateState) (document : Document)
    (fragmentsWithMatches : List FragmentWithMatch) :
    ((provideFragmentsForDocument slotSpecification st document
        fragmentsWithMatches).2.mapAllocId = st.mapAllocId) ∧
    ((provideFragmentsForDocument slotSpecification st document
        fragmentsWithMatches).2.fragmentsToKeysToSlots =
      fragmentsWithMatches.map (fun fm =>
        (fm.fragment, computeKeysToSlots slotSpecification document fm.matchData))) ∧
    ((provideFragmentsForDocument slotSpecification st document
        fragmentsWithMatches).2.fragmentsToKeysToSlots =
      (provideFragmentsForDocument slotSpecification
        { mapAllocId := st.mapAllocId, fragmentsToKeysToSlots := [] } document
        fragmentsWithMatches).2.fragmentsToKeysToSlots) :=
  ⟨rfl, rfl, rfl⟩

/-- C5: for every (sane) pattern engine — including one matching the empty
string — and every input text length, the textual matcher's scan
terminates: `len + 1` fuel units suffice (any larger fuel gives the same
result, i.e. the loop always reaches its end because the scan position
advances past every zero-width match), and the resulting match list never
contains two matches starting at the same offset (the start offsets are
strictly increasing, hence pairwise distinct). -/
theorem matchAll_terminates_without_duplicate_starts
    (nextMatch : Nat → Option (Nat × Nat)) (len : Nat)
    (hsane : NextMatchSane nextMatch len) :
    (∀ fuel, len + 1 ≤ fuel →
      matchAllScan nextMatch len 0 fuel = RegexMatcher.matchAll nextMatch len) ∧
    (RegexMatcher.matchAll nextMatch len).Pairwise (fun a b => a.1 < b.1) ∧
    ((RegexMatcher.matchAll nextMatch len).map Prod.fst).Nodup := by
  refine ⟨?_, ?_, ?_⟩
  · intro fuel hf
    exact matchAllScan_fuel_independent nextMatch len hsane fuel (len + 1) 0
      (by omega) (by omega)
  · exact matchAllScan_pairwise nextMatch len hsane (len + 1) 0
  · have hp := matchAllScan_pairwise nextMatch len hsane (len + 1) 0
    exact List.pairwise_map.mpr (hp.imp fun h => Nat.ne_of_lt h)

/-- Witness for C5 at a concrete input: the engine of a pattern matching
the empty string (a zero-width match at every offset of a text of length
3). The scan yields one match per offset — it terminates and reports no two
matches at the same offset. -/
theorem matchAll_terminates_without_duplicate_starts_witness :
    NextMatchSane (fun pos => if pos ≤ 3 then some (pos, pos) else none) 3 ∧
    RegexMatcher.matchAll (fun pos => if pos ≤ 3 then some (pos, pos) else none) 3 =
      [(0, 0), (1, 1), (2, 2), (3, 3)] ∧
    ((RegexMatcher.matchAll (fun pos => if pos ≤ 3 then some (pos, pos) else none) 3).map
      Prod.fst).Nodup := by
  have hsane : NextMatchSane (fun pos => if pos ≤ 3 then some (pos, pos) else none) 3 := by
    intro pos s e h
    by_cases hp : pos ≤ 3
    · simp [hp] at h
      omega
    · simp [hp] at h
  refine ⟨hsane, by decide, ?_⟩
  exact (matchAll_terminates_without_duplicate_starts
    (fun pos => if pos ≤ 3 then some (pos, pos) else none) 3 hsane).2.2

/-! ### Lemmas about the structural pattern finder -/

mutual

theorem findContinue_node_eq_filter (p : SyntaxTreeNode → Bool) :
    (n : SyntaxTreeNode) →
      findMatchesInNode p .continueIntoDescendants n = (allNodes n).filter p
  | .node t r cs => by
    have hl := findContinue_list_eq_filter p cs
    simp only [findMatchesInNode, allNodes, List.filter_cons]
    cases hp : p (.node t r cs) <;> simp [hp, hl]

theorem findContinue_list_eq_filter (p : SyntaxTreeNode → Bool) :
    (cs : List SyntaxTreeNode) →
      findMatchesInList p .continueIntoDescendants cs = (allNodesInList cs).filter p
  | [] => rfl
  | c :: rest => by
    have hn := findContinue_node_eq_filter p c
    have hl := findContinue_list_eq_filter p rest
    simp only [findMatchesInList, allNodesInList, List.filter_append]
    rw [hn, hl]

end

mutual

theorem findSkip_node_sublist (p : SyntaxTreeNode → Bool) :
    (n : SyntaxTreeNode) →
      (findMatchesInNode p .skipDescendants n).Sublist ((allNodes n).filter p)
  | .node t r cs => by
    have hl := findSkip_list_sublist p cs
    simp only [findMatchesInNode, allNodes, List.filter_cons]
    cases hp : p (.node t r cs)
    · simp only [hp, Bool.false_eq_true, if_false]
      exact hl
    · simp only [hp, if_true]
      exact List.Sublist.cons₂ _ (List.nil_sublist _)

theorem findSkip_list_sublist (p : SyntaxTreeNode → Bool) :
    (cs : List SyntaxTreeNode) →
      (findMatchesInList p .skipDescendants cs).Sublist ((allNodesInList cs).filter p)
  | [] => List.Sublist.refl []
  | c :: rest => by
    have hn := findSkip_node_sublist p c
    have hl := findSkip_list_sublist p rest
    simp only [findMatchesInList, allNodesInList, List.filter_append]
    exact hn.append hl

end

mutual

theorem mem_allNodes_trans :
    (y : SyntaxTreeNode) → ∀ x, x ∈ allNodes y → ∀ z, z ∈ allNodes x → z ∈ allNodes y
  | .node t r cs => by
    intro x hx z hz
    simp only [allNodes, List.mem_cons] at hx ⊢
    rcases hx with heq | hmem
    · subst heq
      simpa [allNodes] using hz
    · exact Or.inr (mem_allNodesInList_trans cs x hmem z hz)

theorem mem_allNodesInList_trans :
    (cs : List SyntaxTreeNode) → ∀ x, x ∈ allNodesInList cs → ∀ z, z ∈ allNodes x →
      z ∈ allNodesInList cs
  | [] => by intro x hx; simp [allNodesInList] at hx
  | c :: rest => by
    intro x hx z hz
    simp only [allNodesInList, List.mem_append] at hx ⊢
    rcases hx with h1 | h2
    · exact Or.inl (mem_allNodes_trans c x h1 z hz)
    · exact Or.inr (mem_allNodesInList_trans rest x h2 z hz)

end

mutual

theorem nodeSize_le_of_mem_allNodes :
    (y : SyntaxTreeNode) → ∀ x, x ∈ allNodes y → nodeSize x ≤ nodeSize y
  | .node t r cs => by
    intro x hx
    simp only [allNodes, List.mem_cons] at hx
    rcases hx with heq | hmem
    · subst heq; exact Nat.le_refl _
    · have := nodeSize_le_of_mem_allNodesInList cs x hmem
      simp only [nodeSize]
      omega

theorem nodeSize_le_of_mem_allNodesInList :
    (cs : List SyntaxTreeNode) → ∀ x, x ∈ allNodesInList cs → nodeSize x ≤ listSize cs
  | [] => by intro x hx; simp [allNodesInList] at hx
  | c :: rest => by
    intro x hx
    simp only [allNodesInList, List.mem_append] at hx
    rcases hx with h1 | h2
    · have := nodeSize_le_of_mem_allNodes c x h1
      simp only [listSize]
      omega
    · have := nodeSize_le_of_mem_allNodesInList rest x h2
      simp only [listSize]
      omega

end

theorem append_eq_pair {α : Type} {l1 l2 : List α} {a b : α} (h : l1 ++ l2 = [a, b]) :
    (l1 = [] ∧ l2 = [a, b]) ∨ (l1 = [a] ∧ l2 = [b]) ∨ (l1 = [a, b] ∧ l2 = []) := by
  match l1 with
  | [] => exact Or.inl ⟨rfl, h⟩
  | [x] =>
    simp only [List.cons_append, List.nil_append, List.cons.injEq] at h
    exact Or.inr (Or.inl ⟨by rw [h.1], h.2⟩)
  | x :: y :: zs =>
    simp only [List.cons_append, List.cons.injEq] at h
    obtain ⟨hxa, hyb, hrest⟩ := h
    rcases List.append_eq_nil.mp hrest with ⟨hzs, hl2⟩
    exact Or.inr (Or.inr ⟨by rw [hxa, hyb, hzs], hl2⟩)

mutual

theorem findSkip_scenario_node (p : SyntaxTreeNode → Bool) (outer inner : SyntaxTreeNode)
    (hpi : p inner = true) (hdesc : inner ∈ strictDescendants outer) (hne : inner ≠ outer) :
    (n : SyntaxTreeNode) → (allNodes n).filter p = [outer, inner] →
      findMatchesInNode p .skipDescendants n = [outer]
  | .node t r cs => by
    intro hfilter
    simp only [allNodes, List.filter_cons] at hfilter
    cases hp : p (.node t r cs)
    · rw [hp] at hfilter
      simp only [Bool.false_eq_true, if_false] at hfilter
      have hr := findSkip_scenario_list p outer inner hpi hdesc hne cs hfilter
      simp [findMatchesInNode, hp, hr]
    · rw [hp] at hfilter
      simp only [if_true] at hfilter
      have heq : SyntaxTreeNode.node t r cs = outer := (List.cons.injEq _ _ _ _ ▸ hfilter).1
      have hstep : findMatchesInNode p .skipDescendants (.node t r cs) = [.node t r cs] := by
        simp [findMatchesInNode, hp]
      rw [hstep, heq]

theorem findSkip_scenario_list (p : SyntaxTreeNode → Bool) (outer inner : SyntaxTreeNode)
    (hpi : p inner = true) (hdesc : inner ∈ strictDescendants outer) (hne : inner ≠ outer) :
    (cs : List SyntaxTreeNode) → (allNodesInList cs).filter p = [outer, inner] →
      findMatchesInList p .skipDescendants cs = [outer]
  | [] => by intro h; simp [allNodesInList] at h
  | c :: rest => by
    intro hfilter
    simp only [allNodesInList, List.filter_append] at hfilter
    rcases append_eq_pair hfilter with ⟨h1, h2⟩ | ⟨h1, h2⟩ | ⟨h1, h2⟩
    · have hc : findMatchesInNode p .skipDescendants c = [] := by
        have hs := findSkip_node_sublist p c
        rw [h1] at hs
        exact List.sublist_nil.mp hs
      have hr := findSkip_scenario_list p outer inner hpi hdesc hne rest h2
      simp [findMatchesInList, hc, hr]
    · exfalso
      have houter_mem : outer ∈ allNodes c := by
        have hmem : outer ∈ (allNodes c).filter p := by rw [h1]; simp
        exact (List.mem_filter.mp hmem).1
      have hinner_in_outer : inner ∈ allNodes outer := by
        cases outer with
        | node t2 r2 cs2 =>
          simp only [allNodes, List.mem_cons]
          exact Or.inr (by
            simpa [strictDescendants, SyntaxTreeNode.childNodes] using hdesc)
      have hinner_c : inner ∈ allNodes c :=
        mem_allNodes_trans c outer houter_mem inner hinner_in_outer
      have hmem2 : inner ∈ (allNodes c).filter p := List.mem_filter.mpr ⟨hinner_c, hpi⟩
      rw [h1] at hmem2
      exact hne (List.mem_singleton.mp hmem2)
    · have hc := findSkip_scenario_node p outer inner hpi hdesc hne c h1
      have hr : findMatchesInList p .skipDescendants rest = [] := by
        have hs := findSkip_list_sublist p rest
        rw [h2] at hs
        exact List.sublist_nil.mp hs
      simp [findMatchesInList, hc, hr]

end

/-- C2: for every syntax tree whose matching nodes (in pre-order) are
exactly an outer node and a strict descendant of it, the structural
pattern finder with `skipDescendants` yields exactly one Fragment, for the
outer node, while `continueIntoDescendants` yields Fragments for both; and
with `continueIntoDescendants` the finder collects exactly the matching
nodes of the pre-order traversal (source order) in general. -/
theorem treeFinder_skip_one_continue_both (p : SyntaxTreeNode → Bool)
    (root outer inner : SyntaxTreeNode)
    (hfilter : (allNodes root).filter p = [outer, inner])
    (hdesc : inner ∈ strictDescendants outer) :
    TreePatternFinder.applyInTree ⟨p, .skipDescendants⟩ root = [⟨outer⟩] ∧
    TreePatternFinder.applyInTree ⟨p, .continueIntoDescendants⟩ root = [⟨outer⟩, ⟨inner⟩] ∧
    findMatchesInNode p .continueIntoDescendants root = (allNodes root).filter p := by
  have hpi : p inner = true := by
    have hmem : inner ∈ (allNodes root).filter p := by rw [hfilter]; simp
    exact (List.mem_filter.mp hmem).2
  have hne : inner ≠ outer := by
    intro heq
    cases outer with
    | node t r cs =>
      have hle := nodeSize_le_of_mem_allNodesInList cs inner
        (by simpa [strictDescendants, SyntaxTreeNode.childNodes] using hdesc)
      rw [heq] at hle
      simp only [nodeSize] at hle
      omega
  refine ⟨?_, ?_, findContinue_node_eq_filter p root⟩
  · unfold TreePatternFinder.applyInTree
    rw [findSkip_scenario_node p outer inner hpi hdesc hne root hfilter]
    rfl
  · unfold TreePatternFinder.applyInTree
    rw [findContinue_node_eq_filter p root, hfilter]
    rfl

/-- Witness for C2 at a concrete tree: a root "Object" node containing a
"Property" node which itself contains a nested "Property" node, with the
predicate matching "Property" nodes. -/
theorem treeFinder_skip_one_continue_both_witness :
    ((allNodes exampleRootNode).filter (fun n => n.type == "Property") =
      [exampleOuterNode, exampleInnerNode]) ∧
    (exampleInnerNode ∈ strictDescendants exampleOuterNode) ∧
    TreePatternFinder.applyInTree ⟨fun n => n.type == "Property", .skipDescendants⟩
      exampleRootNode = [⟨exampleOuterNode⟩] ∧
    TreePatternFinder.applyInTree ⟨fun n => n.type == "Property", .continueIntoDescendants⟩
      exampleRootNode = [⟨exampleOuterNode⟩, ⟨exampleInnerNode⟩] := by
  have hfilter : (allNodes exampleRootNode).filter (fun n => n.type == "Property") =
      [exampleOuterNode, exampleInnerNode] := rfl
  have hdesc : exampleInnerNode ∈ strictDescendants exampleOuterNode := by
    simp [strictDescendants, exampleOuterNode, exampleInnerNode,
      SyntaxTreeNode.childNodes, allNodesInList, allNodes]
  have h := treeFinder_skip_one_continue_both (fun n => n.type == "Property")
    exampleRootNode exampleOuterNode exampleInnerNode hfilter hdesc
  exact ⟨hfilter, hdesc, h.1, h.2.1⟩

/-! ### Lemmas for the valuator round trip -/

theorem charToDigit?_digitChar {d : Nat} (h : d < 10) :
    charToDigit? (digitChar d) = some d := by
  interval_cases d <;> rfl

theorem digitsOfChars?_map_digitChar (l : List Nat) (h : ∀ d ∈ l, d < 10) :
    digitsOfChars? (l.map digitChar) = some l := by
  induction l with
  | nil => rfl
  | cons d ds ih =>
    have hd : d < 10 := h d (List.mem_cons_self d ds)
    have hds := ih (fun x hx => h x (List.mem_cons_of_mem d hx))
    simp [digitsOfChars?, charToDigit?_digitChar hd, hds]

theorem natToDecimalString_data_ne_nil (n : Nat) : (natToDecimalString n).data ≠ [] := by
  unfold natToDecimalString
  by_cases hn : n = 0
  · rw [if_pos hn]; decide
  · rw [if_neg hn]
    intro hcontra
    have hdig : Nat.digits 10 n ≠ [] := Nat.digits_ne_nil_iff_ne_zero.mpr hn
    have : ((Nat.digits 10 n).map digitChar).reverse = [] := hcontra
    simp only [List.reverse_eq_nil_iff, List.map_eq_nil_iff] at this
    exact hdig this

theorem mem_natToDecimalString_isDigit (n : Nat) :
    ∀ c ∈ (natToDecimalString n).data, (charToDigit? c).isSome = true := by
  unfold natToDecimalString
  by_cases hn : n = 0
  · rw [if_pos hn]
    intro c hc
    have : c = '0' := by simpa using hc
    rw [this]; rfl
  · rw [if_neg hn]
    intro c hc
    have hc2 : c ∈ ((Nat.digits 10 n).map digitChar).reverse := hc
    rw [List.mem_reverse] at hc2
    rcases List.mem_map.mp hc2 with ⟨d, hd, hdc⟩
    rw [← hdc, charToDigit?_digitChar (Nat.digits_lt_base (by norm_num) hd)]
    rfl

theorem parseNat_natToDecimalString (n : Nat) :
    parseNatOfChars? (natToDecimalString n).data = some n := by
  by_cases hn : n = 0
  · rw [hn]; decide
  · have hdata : (natToDecimalString n).data = ((Nat.digits 10 n).reverse).map digitChar := by
      unfold natToDecimalString
      rw [if_neg hn]
      show ((Nat.digits 10 n).map digitChar).reverse = _
      rw [List.map_reverse]
    rw [hdata]
    unfold parseNatOfChars?
    have hne : (((Nat.digits 10 n).reverse).map digitChar).isEmpty = false := by
      rw [List.isEmpty_eq_false]
      simp only [ne_eq, List.map_eq_nil_iff, List.reverse_eq_nil_iff]
      exact Nat.digits_ne_nil_iff_ne_zero.mpr hn
    rw [hne]
    simp only [Bool.false_eq_true, if_false]
    rw [digitsOfChars?_map_digitChar _ (fun d hd =>
      Nat.digits_lt_base (by norm_num) (List.mem_reverse.mp hd))]
    simp [Nat.ofDigits_digits]

/-- C4: round-trip fidelity of the valuators — for every representable
numeric value (zero and negative values included) and every string (the
empty string included), deserializing the serialization yields the value
back. -/
theorem valuator_round_trip :
    (∀ v : Int, NumericValuator.deserialize (NumericValuator.serialize v) = some v) ∧
    (∀ s : String, TextualValuator.deserialize (TextualValuator.serialize s) = s) := by
  constructor
  · intro v
    cases v with
    | ofNat n =>
      have hparse := parseNat_natToDecimalString n
      have hnd : ∀ c ∈ (natToDecimalString n).data, c ≠ '-' := by
        intro c hc hcontra
        have hsome := mem_natToDecimalString_isDigit n c hc
        rw [hcontra] at hsome
        exact absurd hsome (by decide)
      cases hdata : (natToDecimalString n).data with
      | nil => exact absurd hdata (natToDecimalString_data_ne_nil n)
      | cons c cs =>
        show NumericValuator.deserialize (natToDecimalString n) = some (Int.ofNat n)
        unfold NumericValuator.deserialize
        rw [hdata]
        simp only [if_neg (hnd c (hdata ▸ List.mem_cons_self c cs))]
        rw [← hdata, hparse]
        rfl
    | negSucc m =>
      show NumericValuator.deserialize ("-" ++ natToDecimalString (m + 1)) =
        some (Int.negSucc m)
      unfold NumericValuator.deserialize
      rw [String.data_append]
      show (if '-' = '-' then (parseNatOfChars? (natToDecimalString (m + 1)).data).map
              (fun n => -(n : Int))
            else (parseNatOfChars? ('-' :: (natToDecimalString (m + 1)).data)).map
              (fun n => (n : Int))) = some (Int.negSucc m)
      rw [if_pos rfl, parseNat_natToDecimalString (m + 1)]
      simp [Int.negSucc_eq]
  · intro s
    rfl

end Lorgnette
